import Mathlib

/-!
Verification of the pairing and presence-aware event relay of the
`playtogether` server (`server/controllers/socketController.js`), via a
shallow embedding of its data model and socket event handlers.

The server keeps two module-level registries:
  * `activeConnections : Map<userId, {socketId, user, connectedAt}>` —
    the Presence Directory;
  * `parentChildRooms : Map<parentId, roomId>` — diagnostic room bookkeeping.
Sockets are joined to socket.io rooms named `family_<parentUserId>`; a
parent's playback commands are emitted with `socket.to(roomId)` which
delivers to every socket in the room except the sender.

We model user ids, socket ids and timestamps as `Nat`, the registries as
association lists with the JS `Map` operations (`set` replaces, `delete`
filters), room membership as a list of (roomKey, socketId) pairs with the
idempotent `socket.join`, and each event handler as a pure function from
the server state and the handler's inputs to the list of emitted
(targetSocketId, payload) pairs, plus any state it mutates.
-/

namespace PlayTogether

/-- User roles, from the user schema (`role ∈ {parent, child}`). -/
inductive Role where
  | parent
  | child
deriving DecidableEq, Repr

/-- The verified identity attached to a socket by `authenticateSocket`
(`socket.user`): Mongo user document fields the relay reads
(`_id`, `role`, `pairedWith`, `name`). -/
structure User where
  id : Nat
  role : Role
  pairedWith : Option Nat
  name : String
deriving DecidableEq, Repr

/-- One value of the `activeConnections` map:
`{ socketId: socket.id, user: socket.user, connectedAt: new Date() }`. -/
structure Conn where
  socketId : Nat
  user : User
  connectedAt : Nat
deriving DecidableEq, Repr

/-- A video document, with the fields the socket controller reads
(`_id`, `uploadedBy`, `title`, `url`, `duration`, `isActive`,
`createdAt`, `playCount`, `lastPlayed`). -/
structure Video where
  id : Nat
  uploadedBy : Nat
  title : String
  url : String
  duration : Nat
  isActive : Bool
  createdAt : Nat
  playCount : Nat
  lastPlayed : Option Nat
deriving DecidableEq, Repr

/-- The video payload embedded in a `video_control` message:
`{ title, url, duration }`. -/
structure VideoDescriptor where
  title : String
  url : String
  duration : Nat
deriving DecidableEq, Repr

/-- The descriptor the handlers build from a video document. -/
def Video.descr (v : Video) : VideoDescriptor :=
  { title := v.title, url := v.url, duration := v.duration }

/-- Payloads of the `video_control` event, one per parent command
(`action` plus the action's fields, and the `timestamp`). -/
inductive VideoControl where
  | play (videoId : Nat) (currentTime : Nat) (video : VideoDescriptor) (timestamp : Nat)
  | pause (videoId : Nat) (currentTime : Nat) (timestamp : Nat)
  | seek (videoId : Nat) (seekTime : Nat) (timestamp : Nat)
  | volume (videoId : Nat) (volumeLevel : Nat) (timestamp : Nat)
  | stop (videoId : Nat) (timestamp : Nat)
  | next (videoId : Nat) (video : VideoDescriptor) (timestamp : Nat)
  | previous (videoId : Nat) (video : VideoDescriptor) (timestamp : Nat)
deriving DecidableEq, Repr

/-- Outbound server-to-client events emitted by the handlers under
verification. -/
inductive OutEvent where
  | parent_online (userName : String) (userId : Nat) (onlineAt : Nat)
  | child_online (userName : String) (userId : Nat) (onlineAt : Nat)
  | parent_offline (userName : String) (userId : Nat) (offlineAt : Nat)
  | child_offline (userName : String) (userId : Nat) (offlineAt : Nat)
  | paired_status (isOnline : Bool) (lastSeen : Option Nat)
  | video_control (payload : VideoControl)
  | errorMsg (message : String)
deriving DecidableEq, Repr

/-- An emission: the target socket id and the payload.  `io.to(sid).emit`
and `socket.emit` produce one emission; `socket.to(room).emit` produces one
per room member other than the sender. -/
abbrev Emit := Nat × OutEvent

/-! ### JS `Map` operations on association lists -/

/-- `Map.get`: the value stored at `k`, if any. -/
def mapGet {α : Type} (k : Nat) : List (Nat × α) → Option α
  | [] => none
  | p :: m => if p.1 = k then some p.2 else mapGet k m

/-- `Map.set`: insert or replace the binding for `k`. -/
def mapSet {α : Type} (k : Nat) (v : α) (m : List (Nat × α)) : List (Nat × α) :=
  (k, v) :: m.filter (fun p => p.1 ≠ k)

/-- `Map.delete`: drop the binding for `k` (no-op when absent). -/
def mapDelete {α : Type} (k : Nat) (m : List (Nat × α)) : List (Nat × α) :=
  m.filter (fun p => p.1 ≠ k)

/-! ### Server state -/

/-- The mutable state of the socket layer: the two module-level maps of the
controller, plus socket.io's room membership (a socket is added by
`socket.join` and removed by the transport when the socket disconnects).
A room key `k` stands for the room name `family_<k>`. -/
structure ServerState where
  activeConnections : List (Nat × Conn)
  parentChildRooms : List (Nat × Nat)
  rooms : List (Nat × Nat)
deriving DecidableEq, Repr

/-- The state at process start: every registry empty. -/
def initialState : ServerState :=
  { activeConnections := [], parentChildRooms := [], rooms := [] }

/-- `socket.join(roomId)`: idempotent room membership insertion. -/
def roomJoin (roomKey sid : Nat) (rooms : List (Nat × Nat)) : List (Nat × Nat) :=
  if (roomKey, sid) ∈ rooms then rooms else (roomKey, sid) :: rooms

/-- Targets of `socket.to(family_<roomKey>).emit(...)` issued from socket
`senderSid`: every socket in the room except the sender. -/
def roomTargets (st : ServerState) (roomKey senderSid : Nat) : List Nat :=
  (st.rooms.filter (fun m => m.1 = roomKey ∧ m.2 ≠ senderSid)).map Prod.snd

/-- `socket.to(family_<roomKey>).emit(ev)` from socket `senderSid`. -/
def emitToRoom (st : ServerState) (roomKey senderSid : Nat) (ev : OutEvent) : List Emit :=
  (roomTargets st roomKey senderSid).map (fun t => (t, ev))

/-! ### Connection lifecycle handlers -/

/-- `handlePairing(socket, io)`: the connecting user joins the family room
derived from the parent's id and, when the partner is already in
`activeConnections`, mutual `parent_online` / `child_online` notifications
are emitted (one to the partner's stored socket via `io.to`, one back to
the connecting socket via `socket.emit`).  A parent additionally records
its room in `parentChildRooms`.  Unpaired users do nothing. -/
def handlePairing (st : ServerState) (u : User) (sid : Nat) (now : Nat) :
    ServerState × List Emit :=
  match u.role, u.pairedWith with
  | Role.parent, some childId =>
      let st1 := { st with rooms := roomJoin u.id sid st.rooms }
      let emits :=
        match mapGet childId st1.activeConnections with
        | some childConnection =>
            [(childConnection.socketId, OutEvent.parent_online u.name u.id now),
             (sid, OutEvent.child_online childConnection.user.name childConnection.user.id now)]
        | none => []
      let st2 := { st1 with parentChildRooms := mapSet u.id u.id st1.parentChildRooms }
      (st2, emits)
  | Role.child, some parentId =>
      let st1 := { st with rooms := roomJoin parentId sid st.rooms }
      let emits :=
        match mapGet parentId st1.activeConnections with
        | some parentConnection =>
            [(parentConnection.socketId, OutEvent.child_online u.name u.id now),
             (sid, OutEvent.parent_online parentConnection.user.name parentConnection.user.id now)]
        | none => []
      (st1, emits)
  | _, none => (st, [])

/-- `handleConnection(io)(socket)`: store the connection in
`activeConnections` (insert-or-replace), then run `handlePairing`.  The
remaining calls only register event handlers and emit nothing at connect
time. -/
def handleConnection (st : ServerState) (u : User) (sid : Nat) (now : Nat) :
    ServerState × List Emit :=
  let st1 := { st with
    activeConnections :=
      mapSet (u.id) { socketId := sid, user := u, connectedAt := now } st.activeConnections }
  handlePairing st1 u sid now

/-- `handleDisconnection(socket, io)`: delete the user's entry from
`activeConnections` (keyed by user id only), then, if the partner is still
in the directory, emit one `parent_offline`/`child_offline` (by the
disconnecting user's role) to the partner's stored socket; a parent also
loses its `parentChildRooms` entry.  The transport removes the
disconnecting socket from all rooms. -/
def handleDisconnection (st : ServerState) (u : User) (sid : Nat) (now : Nat) :
    ServerState × List Emit :=
  let st1 := { st with activeConnections := mapDelete u.id st.activeConnections }
  let emits :=
    match u.pairedWith with
    | some pid =>
        match mapGet pid st1.activeConnections with
        | some pairedConnection =>
            if u.role = Role.parent then
              [(pairedConnection.socketId, OutEvent.parent_offline u.name u.id now)]
            else
              [(pairedConnection.socketId, OutEvent.child_offline u.name u.id now)]
        | none => []
    | none => []
  let st2 :=
    if u.role = Role.parent then
      { st1 with parentChildRooms := mapDelete u.id st1.parentChildRooms }
    else st1
  let st3 := { st2 with rooms := st2.rooms.filter (fun m => m.2 ≠ sid) }
  (st3, emits)

/-- The `get_paired_status` handler: when the requester has a partner,
reply on the requesting socket alone with
`paired_status { isOnline: !!pairedConnection, lastSeen: pairedConnection?.connectedAt || null }`;
an unpaired requester gets no reply. -/
def get_paired_status (st : ServerState) (u : User) (sid : Nat) : List Emit :=
  match u.pairedWith with
  | some pairedUserId =>
      let pairedConnection := mapGet pairedUserId st.activeConnections
      [(sid, OutEvent.paired_status pairedConnection.isSome
          (pairedConnection.map Conn.connectedAt))]
  | none => []

/-! ### The video catalog collaborator

The handlers query Mongo through the `Video` model.  We model the video
collection as a `List Video` and the two queries the controller issues:
`Video.findOne({_id, uploadedBy})` and
`Video.find({uploadedBy, isActive: true}).sort({createdAt: -1})`. -/

/-- `Video.findOne({ _id: videoId, uploadedBy: uid })`. -/
def findOneOwned (db : List Video) (videoId uid : Nat) : Option Video :=
  db.find? (fun v => v.id == videoId && v.uploadedBy == uid)

/-- Insert a video into a list kept in descending `createdAt` order. -/
def insertByCreatedAt (v : Video) : List Video → List Video
  | [] => [v]
  | w :: ws =>
      if w.createdAt ≤ v.createdAt then v :: w :: ws
      else w :: insertByCreatedAt v ws

/-- Sort a list of videos by `createdAt` descending (most recent first),
modelling Mongo's `.sort({ createdAt: -1 })`. -/
def sortByCreatedAtDesc : List Video → List Video
  | [] => []
  | v :: vs => insertByCreatedAt v (sortByCreatedAtDesc vs)

/-- `Video.find({ uploadedBy: uid, isActive: true }).sort({ createdAt: -1 })`:
the parent's catalog, most recently created first. -/
def videosFor (db : List Video) (uid : Nat) : List Video :=
  sortByCreatedAtDesc (db.filter (fun v => v.uploadedBy == uid && v.isActive))

/-- `video.incrementPlayCount()` (from the video schema): bump `playCount`
and stamp `lastPlayed`, then save. -/
def incrementPlayCount (db : List Video) (videoId now : Nat) : List Video :=
  db.map (fun v =>
    if v.id = videoId then
      { v with playCount := v.playCount + 1, lastPlayed := some now }
    else v)

/-! ### JS array semantics used by the next/previous handlers -/

/-- `Array.prototype.findIndex` as an `Option Nat`: the index of the first
element satisfying `p`. -/
def findIdxO {α : Type} (p : α → Bool) : List α → Option Nat
  | [] => none
  | a :: l => if p a then some 0 else (findIdxO p l).map (· + 1)

/-- `Array.prototype.findIndex`: the index of the first match, `-1` when
there is none. -/
def jsFindIndex {α : Type} (p : α → Bool) (l : List α) : Int :=
  match findIdxO p l with
  | some n => (n : Int)
  | none => -1

/-- JS array subscripting `l[i]` as an option: `undefined` (none) for a
negative or out-of-range index. -/
def jsIdx {α : Type} (l : List α) (i : Int) : Option α :=
  if i < 0 then none else l.get? i.toNat

/-- JS `a || b` on object-or-undefined values (objects are truthy). -/
def jsOr {α : Type} (a b : Option α) : Option α :=
  match a with
  | some x => some x
  | none => b

/-! ### Video control handlers (registered for parent sockets only) -/

/-- The `video_play` handler.  Look up the video by id and owner; on a
miss, emit `error` to the issuing socket.  Otherwise emit `video_control`
(action `play`, with the descriptor) to the family room minus the sender,
then `await video.incrementPlayCount()` inside the same try/catch: the
`incrementFails` flag models that save rejecting, in which case the catch
block emits `error "Failed to play video"` to the issuing socket and the
counter is not persisted.  Returns the resulting video collection and the
emissions, in order. -/
def video_play (db : List Video) (incrementFails : Bool) (st : ServerState)
    (u : User) (sid videoId currentTime now : Nat) : List Video × List Emit :=
  match findOneOwned db videoId u.id with
  | none => (db, [(sid, OutEvent.errorMsg "Video not found or access denied")])
  | some video =>
      let relay := emitToRoom st u.id sid
        (OutEvent.video_control (VideoControl.play videoId currentTime video.descr now))
      if incrementFails then
        (db, relay ++ [(sid, OutEvent.errorMsg "Failed to play video")])
      else
        (incrementPlayCount db videoId now, relay)

/-- The `video_pause` handler: forward to the family room minus the sender. -/
def video_pause (st : ServerState) (u : User) (sid videoId currentTime now : Nat) :
    List Emit :=
  emitToRoom st u.id sid
    (OutEvent.video_control (VideoControl.pause videoId currentTime now))

/-- The `video_seek` handler: forward to the family room minus the sender. -/
def video_seek (st : ServerState) (u : User) (sid videoId seekTime now : Nat) :
    List Emit :=
  emitToRoom st u.id sid
    (OutEvent.video_control (VideoControl.seek videoId seekTime now))

/-- The `video_volume` handler: forward to the family room minus the sender. -/
def video_volume (st : ServerState) (u : User) (sid videoId volumeLevel now : Nat) :
    List Emit :=
  emitToRoom st u.id sid
    (OutEvent.video_control (VideoControl.volume videoId volumeLevel now))

/-- The `video_stop` handler: forward to the family room minus the sender. -/
def video_stop (st : ServerState) (u : User) (sid videoId now : Nat) : List Emit :=
  emitToRoom st u.id sid
    (OutEvent.video_control (VideoControl.stop videoId now))

/-- The `video_next` handler: fetch the parent's active catalog sorted by
`createdAt` descending, find `currentVideoId`, and resolve
`videos[currentIndex + 1] || videos[0]`; if that is a video, emit a
`video_control` (action `next`) with its descriptor to the family room
minus the sender, otherwise do nothing. -/
def video_next (db : List Video) (st : ServerState) (u : User)
    (sid currentVideoId now : Nat) : List Emit :=
  let videos := videosFor db u.id
  let currentIndex := jsFindIndex (fun v => v.id == currentVideoId) videos
  let nextVideo := jsOr (jsIdx videos (currentIndex + 1)) (jsIdx videos 0)
  match nextVideo with
  | some nv =>
      emitToRoom st u.id sid
        (OutEvent.video_control (VideoControl.next nv.id nv.descr now))
  | none => []

/-- The `video_previous` handler: as `video_next`, but resolving
`videos[currentIndex - 1] || videos[videos.length - 1]` and emitting
action `previous`. -/
def video_previous (db : List Video) (st : ServerState) (u : User)
    (sid currentVideoId now : Nat) : List Emit :=
  let videos := videosFor db u.id
  let currentIndex := jsFindIndex (fun v => v.id == currentVideoId) videos
  let prevVideo := jsOr (jsIdx videos (currentIndex - 1))
      (jsIdx videos ((videos.length : Int) - 1))
  match prevVideo with
  | some pv =>
      emitToRoom st u.id sid
        (OutEvent.video_control (VideoControl.previous pv.id pv.descr now))
  | none => []

/-! ### Connection event traces

The Presence Directory claims quantify over sequences of connect and
disconnect events.  A socket carries the user record fixed at
authentication time, so each event names both the user and the socket id. -/

/-- A transport-level connection event: a socket for user `u` with id
`sid` connects or disconnects at time `now`. -/
inductive Event where
  | connect (u : User) (sid : Nat) (now : Nat)
  | disconnect (u : User) (sid : Nat) (now : Nat)
deriving DecidableEq, Repr

/-- The state transition of one event (emissions discarded). -/
def step (st : ServerState) (e : Event) : ServerState :=
  match e with
  | Event.connect u sid now => (handleConnection st u sid now).1
  | Event.disconnect u sid now => (handleDisconnection st u sid now).1

/-- Run a trace of events from a starting state. -/
def runFrom (st : ServerState) : List Event → ServerState
  | [] => st
  | e :: es => runFrom (step st e) es

/-- Run a trace of events from the initial (empty) state. -/
def run (es : List Event) : ServerState :=
  runFrom initialState es

/-- The `Conn` value written by the most recent connect event for `uid` in
the trace, if the trace contains any. -/
def latestConnOf (uid : Nat) : List Event → Option Conn
  | [] => none
  | e :: es =>
      match latestConnOf uid es with
      | some c => some c
      | none =>
          match e with
          | Event.connect u sid now =>
              if u.id = uid then some { socketId := sid, user := u, connectedAt := now }
              else none
          | Event.disconnect _ _ _ => none

/-- The keys (user ids) of the Presence Directory. -/
def dirKeys (st : ServerState) : List Nat :=
  st.activeConnections.map Prod.fst

/-- The socket ids stored in the Presence Directory. -/
def dirSockets (st : ServerState) : List Nat :=
  st.activeConnections.map (fun p => p.2.socketId)

/-- The family-room key a user's socket joins, if any: a paired parent
joins `family_<own id>`, a paired child joins `family_<partner id>`,
an unpaired user joins nothing. -/
def roomKeyOf (u : User) : Option Nat :=
  match u.role, u.pairedWith with
  | Role.parent, some _ => some u.id
  | Role.child, some pid => some pid
  | _, none => none

/-- Well-formedness of a server state, as maintained by disciplined
connect/disconnect sequences (each user holding at most one live socket at
a time, socket ids globally distinct):
directory keys and stored socket ids are duplicate-free, each entry is
keyed by its own user's id, room membership is duplicate-free, every room
member is the stored socket of some directory entry joined to the room its
identity derives, and conversely every paired directory entry's socket is
in its derived room. -/
def WellFormed (st : ServerState) : Prop :=
  (dirKeys st).Nodup ∧
  (dirSockets st).Nodup ∧
  (∀ p ∈ st.activeConnections, p.2.user.id = p.1) ∧
  st.rooms.Nodup ∧
  (∀ m ∈ st.rooms, ∃ p ∈ st.activeConnections,
      p.2.socketId = m.2 ∧ roomKeyOf p.2.user = some m.1) ∧
  (∀ p ∈ st.activeConnections, ∀ rk, roomKeyOf p.2.user = some rk →
      (rk, p.2.socketId) ∈ st.rooms)

instance (st : ServerState) : Decidable (WellFormed st) := by
  unfold WellFormed
  have : DecidablePred fun m : Nat × Nat =>
      ∃ p ∈ st.activeConnections, p.2.socketId = m.2 ∧ roomKeyOf p.2.user = some m.1 := by
    intro m
    exact List.decidableBEx _ st.activeConnections
  exact instDecidableAnd

/-! ### Lemmas about the map operations -/

theorem mapGet_mapSet_self {α : Type} (k : Nat) (v : α) (m : List (Nat × α)) :
    mapGet k (mapSet k v m) = some v := by
  simp [mapSet, mapGet]

theorem mapGet_mapDelete_self {α : Type} (k : Nat) (m : List (Nat × α)) :
    mapGet k (mapDelete k m) = none := by
  induction m with
  | nil => simp [mapDelete, mapGet]
  | cons p m ih =>
      unfold mapDelete at ih ⊢
      by_cases hp : p.1 = k
      · rw [List.filter_cons_of_neg (by simp [hp])]
        exact ih
      · rw [List.filter_cons_of_pos (by simp [hp])]
        rw [mapGet, if_neg hp]
        exact ih

theorem mapGet_mapDelete_ne {α : Type} {j k : Nat} (m : List (Nat × α))
    (h : j ≠ k) : mapGet j (mapDelete k m) = mapGet j m := by
  induction m with
  | nil => simp [mapDelete, mapGet]
  | cons p m ih =>
      unfold mapDelete at ih ⊢
      by_cases hp : p.1 = k
      · rw [List.filter_cons_of_neg (by simp [hp])]
        have hpj : ¬ (p.1 = j) := by
          rw [hp]
          exact fun hh => h hh.symm
        rw [ih, mapGet, if_neg hpj]
      · rw [List.filter_cons_of_pos (by simp [hp])]
        rw [mapGet, mapGet]
        by_cases hj : p.1 = j
        · simp [hj]
        · simp only [if_neg hj]
          exact ih

theorem mapGet_mapSet_ne {α : Type} {j k : Nat} (v : α) (m : List (Nat × α))
    (h : j ≠ k) : mapGet j (mapSet k v m) = mapGet j m := by
  have hkj : ¬ (k = j) := fun hh => h hh.symm
  unfold mapSet
  rw [mapGet, if_neg hkj]
  exact mapGet_mapDelete_ne m h

theorem mapGet_eq_some_mem {α : Type} {k : Nat} {c : α} {m : List (Nat × α)}
    (h : mapGet k m = some c) : (k, c) ∈ m := by
  induction m with
  | nil => simp [mapGet] at h
  | cons p m ih =>
      rw [mapGet] at h
      by_cases hp : p.1 = k
      · rw [if_pos hp] at h
        cases p with
        | mk a b =>
            simp only at hp h
            simp only [Option.some_inj] at h
            subst hp
            subst h
            exact List.mem_cons_self _ _
      · rw [if_neg hp] at h
        exact List.mem_cons_of_mem _ (ih h)

theorem mapGet_of_mem_of_nodup {α : Type} {k : Nat} {c : α} {m : List (Nat × α)}
    (hnd : (m.map Prod.fst).Nodup) (h : (k, c) ∈ m) : mapGet k m = some c := by
  induction m with
  | nil => simp at h
  | cons p m ih =>
      rw [List.map_cons, List.nodup_cons] at hnd
      rcases List.mem_cons.mp h with h1 | h1
      · rw [← h1, mapGet, if_pos rfl]
      · rw [mapGet]
        by_cases hp : p.1 = k
        · exfalso
          exact hnd.1 (hp ▸ (List.mem_map.mpr ⟨(k, c), h1, rfl⟩))
        · rw [if_neg hp]
          exact ih hnd.2 h1

theorem keys_nodup_mapDelete {α : Type} (k : Nat) {m : List (Nat × α)}
    (h : (m.map Prod.fst).Nodup) : ((mapDelete k m).map Prod.fst).Nodup :=
  ((List.filter_sublist m).map Prod.fst).nodup h

theorem keys_nodup_mapSet {α : Type} (k : Nat) (v : α) {m : List (Nat × α)}
    (h : (m.map Prod.fst).Nodup) : ((mapSet k v m).map Prod.fst).Nodup := by
  unfold mapSet
  rw [List.map_cons, List.nodup_cons]
  refine ⟨?_, keys_nodup_mapDelete k h⟩
  intro hmem
  rcases List.mem_map.mp hmem with ⟨p, hp, hpk⟩
  have hne := (List.mem_filter.mp hp).2
  simp only [ne_eq, decide_not, Bool.not_eq_true', decide_eq_false_iff_not] at hne
  exact hne hpk

/-! ### How each lifecycle step acts on the Presence Directory -/

theorem handlePairing_activeConnections (st : ServerState) (u : User)
    (sid now : Nat) :
    (handlePairing st u sid now).1.activeConnections = st.activeConnections := by
  unfold handlePairing
  rcases hr : u.role with _ | _ <;> rcases hp : u.pairedWith with _ | pid <;> simp

theorem step_connect_activeConnections (st : ServerState) (u : User)
    (sid now : Nat) :
    (step st (Event.connect u sid now)).activeConnections =
      mapSet u.id { socketId := sid, user := u, connectedAt := now }
        st.activeConnections := by
  rw [step, handleConnection, handlePairing_activeConnections]

theorem step_disconnect_activeConnections (st : ServerState) (u : User)
    (sid now : Nat) :
    (step st (Event.disconnect u sid now)).activeConnections =
      mapDelete u.id st.activeConnections := by
  rw [step, handleDisconnection]
  by_cases hr : u.role = Role.parent <;> simp [hr]

/-- Along any trace, the directory's keys stay duplicate-free. -/
theorem dirKeys_nodup_runFrom (es : List Event) (st : ServerState)
    (h : (dirKeys st).Nodup) : (dirKeys (runFrom st es)).Nodup := by
  induction es generalizing st with
  | nil => exact h
  | cons e es ih =>
      rw [runFrom]
      apply ih
      cases e with
      | connect u sid now =>
          unfold dirKeys
          rw [step_connect_activeConnections]
          exact keys_nodup_mapSet _ _ h
      | disconnect u sid now =>
          unfold dirKeys
          rw [step_disconnect_activeConnections]
          exact keys_nodup_mapDelete _ h

/-- Along any trace, a directory entry present at the end is either the
most recent connect of that user in the trace, or (when the trace never
connects that user) the entry the starting state already held. -/
theorem mapGet_runFrom_fresh (es : List Event) (st : ServerState)
    (uid : Nat) (c : Conn)
    (h : mapGet uid (runFrom st es).activeConnections = some c) :
    latestConnOf uid es = some c ∨
      (latestConnOf uid es = none ∧
        mapGet uid st.activeConnections = some c) := by
  induction es generalizing st with
  | nil => exact Or.inr ⟨rfl, h⟩
  | cons e es ih =>
      rw [runFrom] at h
      rcases ih (step st e) h with h1 | ⟨h1, h2⟩
      · left
        simp [latestConnOf, h1]
      · cases e with
        | connect u sid now =>
            rw [step_connect_activeConnections] at h2
            by_cases hu : u.id = uid
            · left
              rw [hu, mapGet_mapSet_self] at h2
              have heq : latestConnOf uid (Event.connect u sid now :: es) =
                  some { socketId := sid, user := u, connectedAt := now } := by
                simp [latestConnOf, h1, hu]
              rw [heq]
              exact h2
            · right
              rw [mapGet_mapSet_ne _ _ (fun hh => hu hh.symm)] at h2
              refine ⟨?_, h2⟩
              simp [latestConnOf, h1, hu]
        | disconnect u sid now =>
            rw [step_disconnect_activeConnections] at h2
            by_cases hu : u.id = uid
            · rw [hu, mapGet_mapDelete_self] at h2
              cases h2
            · right
              rw [mapGet_mapDelete_ne _ (fun hh => hu hh.symm)] at h2
              refine ⟨?_, h2⟩
              simp [latestConnOf, h1]

/-! ### Well-formedness is the shape of disciplined traces

A connect of a user not currently in the directory on a fresh socket id,
or a disconnect of exactly the socket the directory holds, preserves
`WellFormed`; the initial state is well-formed.  (The Presence Directory
bug exposed by the reconnect-then-stale-disconnect trace arises precisely
from disconnect events outside this discipline.) -/

/-- The transport discipline under which the registries stay consistent:
a user connects only while absent from the directory and on a globally
fresh socket id, and a disconnect event is fired by the very socket the
directory currently stores for that user. -/
def OkEvent (st : ServerState) : Event → Prop
  | Event.connect u sid _ =>
      mapGet u.id st.activeConnections = none ∧ sid ∉ dirSockets st
  | Event.disconnect u sid _ =>
      ∃ c, mapGet u.id st.activeConnections = some c ∧
        c.socketId = sid ∧ c.user = u

theorem mapGet_eq_none_iff {α : Type} {k : Nat} {m : List (Nat × α)} :
    mapGet k m = none ↔ ∀ p ∈ m, p.1 ≠ k := by
  induction m with
  | nil => simp [mapGet]
  | cons p m ih =>
      rw [mapGet]
      by_cases hp : p.1 = k
      · simp [hp]
      · simp [hp, ih]

theorem mapSet_of_get_none {α : Type} {k : Nat} (v : α) {m : List (Nat × α)}
    (h : mapGet k m = none) : mapSet k v m = (k, v) :: m := by
  unfold mapSet
  rw [List.filter_eq_self.mpr]
  intro p hp
  simpa using mapGet_eq_none_iff.mp h p hp

theorem step_connect_rooms (st : ServerState) (u : User) (sid now : Nat) :
    (step st (Event.connect u sid now)).rooms =
      match roomKeyOf u with
      | some rk => roomJoin rk sid st.rooms
      | none => st.rooms := by
  rw [step, handleConnection, handlePairing, roomKeyOf]
  rcases hr : u.role with _ | _ <;> rcases hp : u.pairedWith with _ | pid <;> simp

theorem step_disconnect_rooms (st : ServerState) (u : User) (sid now : Nat) :
    (step st (Event.disconnect u sid now)).rooms =
      st.rooms.filter (fun m => m.2 ≠ sid) := by
  rw [step, handleDisconnection]
  by_cases hr : u.role = Role.parent <;> simp [hr]

theorem roomJoin_mem {roomKey sid : Nat} {rooms : List (Nat × Nat)}
    {m : Nat × Nat} :
    m ∈ roomJoin roomKey sid rooms ↔
      m = (roomKey, sid) ∨ m ∈ rooms := by
  rw [roomJoin]
  by_cases h : (roomKey, sid) ∈ rooms
  · rw [if_pos h]
    constructor
    · exact Or.inr
    · rintro (rfl | hm)
      · exact h
      · exact hm
  · rw [if_neg h]
    exact List.mem_cons

theorem roomJoin_self_mem (roomKey sid : Nat) (rooms : List (Nat × Nat)) :
    (roomKey, sid) ∈ roomJoin roomKey sid rooms :=
  roomJoin_mem.mpr (Or.inl rfl)

theorem roomJoin_nodup {roomKey sid : Nat} {rooms : List (Nat × Nat)}
    (h : rooms.Nodup) : (roomJoin roomKey sid rooms).Nodup := by
  rw [roomJoin]
  by_cases hm : (roomKey, sid) ∈ rooms
  · rw [if_pos hm]
    exact h
  · rw [if_neg hm]
    exact List.nodup_cons.mpr ⟨hm, h⟩

/-- The empty starting state is well-formed. -/
theorem wellFormed_initialState : WellFormed initialState := by
  decide

/-- One disciplined connect or disconnect preserves well-formedness. -/
theorem wellFormed_step (st : ServerState) (e : Event)
    (hwf : WellFormed st) (hok : OkEvent st e) : WellFormed (step st e) := by
  obtain ⟨hknd, hsnd, hkey, hrnd, hrooms1, hrooms2⟩ := hwf
  cases e with
  | connect u sid now =>
      obtain ⟨hfresh, hsid⟩ := hok
      have hac := step_connect_activeConnections st u sid now
      rw [mapSet_of_get_none _ hfresh] at hac
      have hroomsEq := step_connect_rooms st u sid now
      refine ⟨?_, ?_, ?_, ?_, ?_, ?_⟩
      · rw [dirKeys, hac, List.map_cons, List.nodup_cons]
        exact ⟨fun hmem => by
          rcases List.mem_map.mp hmem with ⟨p, hp, hpk⟩
          exact mapGet_eq_none_iff.mp hfresh p hp hpk, hknd⟩
      · rw [dirSockets, hac, List.map_cons, List.nodup_cons]
        exact ⟨hsid, hsnd⟩
      · rw [hac]
        intro p hp
        rcases List.mem_cons.mp hp with rfl | hp2
        · rfl
        · exact hkey p hp2
      · rw [hroomsEq]
        rcases hrk : roomKeyOf u with _ | rk
        · exact hrnd
        · exact roomJoin_nodup hrnd
      · rw [hroomsEq, hac]
        rcases hrk : roomKeyOf u with _ | rk
        · intro m hm
          obtain ⟨p, hp, hps, hprk⟩ := hrooms1 m hm
          exact ⟨p, List.mem_cons_of_mem _ hp, hps, hprk⟩
        · intro m hm
          rcases roomJoin_mem.mp hm with rfl | hm2
          · exact ⟨(u.id, { socketId := sid, user := u, connectedAt := now }),
              List.mem_cons_self _ _, rfl, hrk⟩
          · obtain ⟨p, hp, hps, hprk⟩ := hrooms1 m hm2
            exact ⟨p, List.mem_cons_of_mem _ hp, hps, hprk⟩
      · rw [hroomsEq, hac]
        intro p hp rk2 hprk
        rcases List.mem_cons.mp hp with rfl | hp2
        · have hprk2 : roomKeyOf u = some rk2 := hprk
          rw [hprk2]
          exact roomJoin_self_mem _ _ _
        · have hmem := hrooms2 p hp2 rk2 hprk
          rcases hrk : roomKeyOf u with _ | rk
          · exact hmem
          · exact roomJoin_mem.mpr (Or.inr hmem)
  | disconnect u sid now =>
      obtain ⟨c, hentry, hcs, hcu⟩ := hok
      have hac := step_disconnect_activeConnections st u sid now
      have hroomsEq := step_disconnect_rooms st u sid now
      have hcmem : (u.id, c) ∈ st.activeConnections := mapGet_eq_some_mem hentry
      refine ⟨?_, ?_, ?_, ?_, ?_, ?_⟩
      · rw [dirKeys, hac]
        exact keys_nodup_mapDelete _ hknd
      · rw [dirSockets, hac]
        have hsnd2 : (st.activeConnections.map (fun p => p.2.socketId)).Nodup :=
          hsnd
        exact ((List.filter_sublist st.activeConnections).map
          (fun p => p.2.socketId)).nodup hsnd2
      · rw [hac]
        intro p hp
        exact hkey p (List.mem_of_mem_filter hp)
      · rw [hroomsEq]
        exact (List.filter_sublist st.rooms).nodup hrnd
      · rw [hroomsEq, hac]
        intro m hm
        have hm2 := List.mem_of_mem_filter hm
        have hmsid : m.2 ≠ sid := by
          have := List.of_mem_filter hm
          simpa using this
        obtain ⟨p, hp, hps, hprk⟩ := hrooms1 m hm2
        refine ⟨p, ?_, hps, hprk⟩
        rw [mapDelete]
        apply List.mem_filter.mpr
        refine ⟨hp, ?_⟩
        simp only [ne_eq, decide_not, Bool.not_eq_true', decide_eq_false_iff_not]
        intro hpk
        have : mapGet u.id st.activeConnections = some p.2 := by
          rw [← hpk]
          exact mapGet_of_mem_of_nodup hknd (by simpa using hp)
        rw [hentry] at this
        exact hmsid (by rw [← hps, Option.some_inj.mp this.symm, hcs])
      · rw [hroomsEq, hac]
        intro p hp rk hprk
        have hp2 := List.mem_of_mem_filter hp
        have hpk : p.1 ≠ u.id := by
          have := List.of_mem_filter hp
          simpa [mapDelete] using this
        have hmem := hrooms2 p hp2 rk hprk
        apply List.mem_filter.mpr
        refine ⟨hmem, ?_⟩
        simp only [ne_eq, decide_not, Bool.not_eq_true', decide_eq_false_iff_not]
        intro hpsid
        have heq : p = (u.id, c) :=
          List.inj_on_of_nodup_map hsnd hp2 hcmem (by rw [hpsid, hcs])
        exact hpk (by rw [heq])

/-! ### Room membership characterization in well-formed states -/

theorem roomKeyOf_cases {u : User} {rk : Nat} (h : roomKeyOf u = some rk) :
    (u.role = Role.parent ∧ u.id = rk) ∨
      (u.role = Role.child ∧ u.pairedWith = some rk) := by
  unfold roomKeyOf at h
  rcases hr : u.role with _ | _ <;> rcases hp : u.pairedWith with _ | pid <;>
    simp_all

theorem filter_eq_singleton_of_unique {α : Type} {l : List α} {p : α → Bool} {x : α}
    (hnd : l.Nodup) (hx : x ∈ l) (hpx : p x = true)
    (huniq : ∀ y ∈ l, p y = true → y = x) : l.filter p = [x] := by
  induction l with
  | nil => cases hx
  | cons a l ih =>
      rw [List.nodup_cons] at hnd
      rcases List.mem_cons.mp hx with rfl | hxl
      · rw [List.filter_cons_of_pos hpx]
        have hnil : l.filter p = [] := List.filter_eq_nil_iff.mpr
          (fun y hy hpy =>
            hnd.1 ((huniq y (List.mem_cons_of_mem _ hy) hpy) ▸ hy))
        rw [hnil]
      · by_cases hpa : p a = true
        · exact absurd ((huniq a (List.mem_cons_self _ _) hpa) ▸ hxl) hnd.1
        · rw [List.filter_cons_of_neg (by simpa using hpa)]
          exact ih hnd.2 hxl
            (fun y hy hpy => huniq y (List.mem_cons_of_mem _ hy) hpy)

/-- In a well-formed state where parent `u` is registered at socket `sid`
and the only connected child partnered to `u` can be `cid`, a room
broadcast from the parent's socket reaches nobody when `cid` is absent
from the Presence Directory. -/
theorem roomTargets_eq_nil_of_partner_absent {st : ServerState} {u : User}
    {sid cid : Nat} {pc : Conn}
    (hwf : WellFormed st)
    (_hrole : u.role = Role.parent)
    (hreg : mapGet u.id st.activeConnections = some pc)
    (_hpcu : pc.user = u) (hpcs : pc.socketId = sid)
    (hconsist : ∀ p ∈ st.activeConnections,
        p.2.user.role = Role.child → p.2.user.pairedWith = some u.id → p.1 = cid)
    (habsent : mapGet cid st.activeConnections = none) :
    roomTargets st u.id sid = [] := by
  obtain ⟨hknd, _, hkey, _, hrooms1, _⟩ := hwf
  unfold roomTargets
  rw [List.filter_eq_nil_iff.mpr, List.map_nil]
  intro m hm hpm
  simp only [decide_eq_true_eq] at hpm
  obtain ⟨p, hp, hps, hprk⟩ := hrooms1 m hm
  rw [hpm.1] at hprk
  rcases roomKeyOf_cases hprk with ⟨hpr, hpid⟩ | ⟨hpr, hpid⟩
  · -- a parent socket in room `family_<u.id>` is `u`'s own socket `sid`
    have hpkey : p.1 = u.id := by rw [← hkey p hp, hpid]
    have hpm2 : mapGet u.id st.activeConnections = some p.2 := by
      rw [← hpkey]
      exact mapGet_of_mem_of_nodup hknd (by simpa using hp)
    rw [hreg] at hpm2
    have : m.2 = sid := by
      rw [← hps, Option.some_inj.mp hpm2.symm, hpcs]
    exact hpm.2 this
  · -- a child socket in the room belongs to the partner `cid`, absent here
    have hpkey : p.1 = cid := hconsist p hp hpr hpid
    have hpm2 : mapGet cid st.activeConnections = some p.2 := by
      rw [← hpkey]
      exact mapGet_of_mem_of_nodup hknd (by simpa using hp)
    rw [habsent] at hpm2
    cases hpm2

/-- In a well-formed state where parent `u` is registered at socket `sid`,
`cid` names the only child that can be partnered to `u`, and the partner
child `cc` is present in the directory, a room broadcast from the parent's
socket reaches exactly the partner's registered socket. -/
theorem roomTargets_eq_partner_socket {st : ServerState} {u : User}
    {sid cid : Nat} {pc cc : Conn}
    (hwf : WellFormed st)
    (hrole : u.role = Role.parent)
    (hreg : mapGet u.id st.activeConnections = some pc)
    (hpcu : pc.user = u) (hpcs : pc.socketId = sid)
    (hconsist : ∀ p ∈ st.activeConnections,
        p.2.user.role = Role.child → p.2.user.pairedWith = some u.id → p.1 = cid)
    (hcc : mapGet cid st.activeConnections = some cc)
    (hccrole : cc.user.role = Role.child)
    (hccpair : cc.user.pairedWith = some u.id) :
    roomTargets st u.id sid = [cc.socketId] := by
  obtain ⟨hknd, hsnd, hkey, hrnd, hrooms1, hrooms2⟩ := hwf
  have hne : cid ≠ u.id := by
    intro h
    rw [h, hreg] at hcc
    rw [Option.some_inj.mp hcc.symm, hpcu, hrole] at hccrole
    cases hccrole
  have hccmem : (cid, cc) ∈ st.activeConnections := mapGet_eq_some_mem hcc
  have hpcmem : (u.id, pc) ∈ st.activeConnections := mapGet_eq_some_mem hreg
  have hccroom : (u.id, cc.socketId) ∈ st.rooms := by
    have := hrooms2 (cid, cc) hccmem u.id
    simp only [roomKeyOf, hccrole, hccpair] at this
    exact this trivial
  have hccsid : cc.socketId ≠ sid := by
    intro h
    have heq : (u.id, pc) = (cid, cc) :=
      List.inj_on_of_nodup_map hsnd hpcmem hccmem (by rw [hpcs, h])
    exact hne ((Prod.mk.injEq _ _ _ _).mp heq).1.symm
  unfold roomTargets
  have hfil : st.rooms.filter (fun m => decide (m.1 = u.id ∧ m.2 ≠ sid)) =
      [(u.id, cc.socketId)] := by
    apply filter_eq_singleton_of_unique hrnd hccroom
    · simp [hccsid]
    · intro m hm hpm
      simp only [decide_eq_true_eq] at hpm
      obtain ⟨p, hp, hps, hprk⟩ := hrooms1 m hm
      rw [hpm.1] at hprk
      rcases roomKeyOf_cases hprk with ⟨hpr, hpid⟩ | ⟨hpr, hpid⟩
      · have hpkey : p.1 = u.id := by rw [← hkey p hp, hpid]
        have hpm2 : mapGet u.id st.activeConnections = some p.2 := by
          rw [← hpkey]
          exact mapGet_of_mem_of_nodup hknd (by simpa using hp)
        rw [hreg] at hpm2
        exact absurd (by rw [← hps, Option.some_inj.mp hpm2.symm, hpcs]) hpm.2
      · have hpkey : p.1 = cid := hconsist p hp hpr hpid
        have hpm2 : mapGet cid st.activeConnections = some p.2 := by
          rw [← hpkey]
          exact mapGet_of_mem_of_nodup hknd (by simpa using hp)
        rw [hcc] at hpm2
        have : m.2 = cc.socketId := by
          rw [← hps, Option.some_inj.mp hpm2.symm]
        cases m with
        | mk m1 m2 =>
            simp only at hpm this
            rw [hpm.1, this]
  rw [hfil, List.map_cons, List.map_nil]

/-! ### Index lemmas for the JS array helpers -/

theorem mem_of_getLast?_eq_some {α : Type} {l : List α} {a : α}
    (h : l.getLast? = some a) : a ∈ l := by
  rcases List.mem_getLast?_eq_getLast (show a ∈ l.getLast? from h) with ⟨hne, heq⟩
  rw [heq]
  exact List.getLast_mem hne

theorem get?_pred_length_eq_getLast {α : Type} :
    ∀ (l : List α), l ≠ [] → l.get? (l.length - 1) = l.getLast?
  | [], h => absurd rfl h
  | [_], _ => rfl
  | a :: b :: l, _ => by
      have ih := get?_pred_length_eq_getLast (b :: l) (by simp)
      rw [List.getLast?_cons_cons, ← ih]
      simp

theorem findIdxO_cons_of_pos {α : Type} {p : α → Bool} {a : α} (l : List α)
    (h : p a = true) : findIdxO p (a :: l) = some 0 := by
  rw [findIdxO, if_pos h]

theorem findIdxO_eq_none {α : Type} {p : α → Bool} {l : List α}
    (h : ∀ a ∈ l, p a = false) : findIdxO p l = none := by
  induction l with
  | nil => rfl
  | cons a l ih =>
      rw [findIdxO, if_neg (by simp [h a (List.mem_cons_self _ _)]),
        ih (fun b hb => h b (List.mem_cons_of_mem _ hb)), Option.map_none']

theorem findIdxO_getLast_of_nodup_keys :
    ∀ {l : List Video} {vn : Video},
      (l.map Video.id).Nodup → l.getLast? = some vn →
      findIdxO (fun v => v.id == vn.id) l = some (l.length - 1)
  | [], _, _, hlast => by cases hlast
  | [a], vn, _, hlast => by
      have : a = vn := Option.some_inj.mp hlast
      rw [this]
      exact findIdxO_cons_of_pos _ (by simp)
  | a :: b :: l, vn, hnd, hlast => by
      rw [List.getLast?_cons_cons] at hlast
      rw [List.map_cons, List.nodup_cons] at hnd
      have hvnmem : vn ∈ b :: l := mem_of_getLast?_eq_some hlast
      have hane : (a.id == vn.id) = false := by
        simp only [beq_eq_false_iff_ne, ne_eq]
        intro hid
        exact hnd.1 (hid ▸ List.mem_map.mpr ⟨vn, hvnmem, rfl⟩)
      rw [findIdxO, if_neg (by simp [hane]),
        findIdxO_getLast_of_nodup_keys hnd.2 hlast]
      simp

/-! ### The catalog ordering is by creation time, most recent first -/

theorem mem_insertByCreatedAt {v x : Video} : ∀ (l : List Video),
    (x ∈ insertByCreatedAt v l ↔ x = v ∨ x ∈ l)
  | [] => by simp [insertByCreatedAt]
  | w :: ws => by
      rw [insertByCreatedAt]
      by_cases h : w.createdAt ≤ v.createdAt
      · rw [if_pos h]
        simp
      · rw [if_neg h]
        simp only [List.mem_cons, mem_insertByCreatedAt ws]
        tauto

theorem pairwise_insertByCreatedAt {v : Video} : ∀ {l : List Video},
    List.Pairwise (fun a b => b.createdAt ≤ a.createdAt) l →
    List.Pairwise (fun a b => b.createdAt ≤ a.createdAt) (insertByCreatedAt v l)
  | [], _ => by simp [insertByCreatedAt]
  | w :: ws, hp => by
      rw [List.pairwise_cons] at hp
      rw [insertByCreatedAt]
      by_cases h : w.createdAt ≤ v.createdAt
      · rw [if_pos h, List.pairwise_cons]
        refine ⟨?_, List.pairwise_cons.mpr hp⟩
        intro x hx
        rcases List.mem_cons.mp hx with rfl | hxws
        · exact h
        · exact le_trans (hp.1 x hxws) h
      · rw [if_neg h, List.pairwise_cons]
        refine ⟨?_, pairwise_insertByCreatedAt hp.2⟩
        intro x hx
        rcases (mem_insertByCreatedAt ws).mp hx with rfl | hxws
        · exact le_of_not_le h
        · exact hp.1 x hxws

theorem pairwise_sortByCreatedAtDesc : ∀ (l : List Video),
    List.Pairwise (fun a b => b.createdAt ≤ a.createdAt) (sortByCreatedAtDesc l)
  | [] => List.Pairwise.nil
  | v :: vs => pairwise_insertByCreatedAt (pairwise_sortByCreatedAtDesc vs)

/-! ### Concrete fixtures used by the witnesses -/

/-- A connected parent paired with user 2. -/
def sampleParent : User :=
  { id := 1, role := Role.parent, pairedWith := some 2, name := "Alice" }

/-- The child paired with `sampleParent`. -/
def sampleChild : User :=
  { id := 2, role := Role.child, pairedWith := some 1, name := "Bob" }

/-- A second, unrelated connected parent paired with user 4. -/
def sampleParent2 : User :=
  { id := 3, role := Role.parent, pairedWith := some 4, name := "Carol" }

/-- The child paired with `sampleParent2`. -/
def sampleChild2 : User :=
  { id := 4, role := Role.child, pairedWith := some 3, name := "Dave" }

/-- A video owned by `sampleParent`. -/
def sampleVideo : Video :=
  { id := 42, uploadedBy := 1, title := "Song", url := "https://cdn/42.mp4",
    duration := 120, isActive := true, createdAt := 5, playCount := 0,
    lastPlayed := none }

/-- A one-video collection owned by `sampleParent`. -/
def sampleDb : List Video := [sampleVideo]

/-- A three-video active catalog owned by `sampleParent`, with creation
times 30 > 20 > 10, so the catalog ordering is [101, 102, 103]. -/
def sampleDb3 : List Video :=
  [ { id := 102, uploadedBy := 1, title := "B", url := "https://cdn/102.mp4",
      duration := 60, isActive := true, createdAt := 20, playCount := 0,
      lastPlayed := none },
    { id := 101, uploadedBy := 1, title := "A", url := "https://cdn/101.mp4",
      duration := 50, isActive := true, createdAt := 30, playCount := 0,
      lastPlayed := none },
    { id := 103, uploadedBy := 1, title := "C", url := "https://cdn/103.mp4",
      duration := 70, isActive := true, createdAt := 10, playCount := 0,
      lastPlayed := none } ]

/-- Two parent/child pairs connected simultaneously: sockets 11/12 in room
1 and sockets 13/14 in room 3. -/
def samplePairedState : ServerState :=
  { activeConnections :=
      [ (1, { socketId := 11, user := sampleParent, connectedAt := 0 }),
        (2, { socketId := 12, user := sampleChild, connectedAt := 1 }),
        (3, { socketId := 13, user := sampleParent2, connectedAt := 2 }),
        (4, { socketId := 14, user := sampleChild2, connectedAt := 3 }) ],
    parentChildRooms := [(1, 1), (3, 3)],
    rooms := [(1, 11), (1, 12), (3, 13), (3, 14)] }

/-- Only `sampleParent` connected (its child partner offline), plus the
unrelated second pair. -/
def sampleParentOnlyState : ServerState :=
  { activeConnections :=
      [ (1, { socketId := 11, user := sampleParent, connectedAt := 0 }),
        (3, { socketId := 13, user := sampleParent2, connectedAt := 2 }),
        (4, { socketId := 14, user := sampleChild2, connectedAt := 3 }) ],
    parentChildRooms := [(1, 1), (3, 3)],
    rooms := [(1, 11), (3, 13), (3, 14)] }

/-! ### The claims -/

/-- C8: a `video_play` whose issuing parent does not own the referenced
video produces exactly one `error` emission, addressed to the issuing
socket only; nothing is forwarded to the family room, and the video
collection (in particular every play counter) is returned unchanged.  The
handler reads but never writes the directory or room state. -/
theorem claim_C8_access_denied_error_to_parent_only (db : List Video)
    (b : Bool) (st : ServerState) (u : User) (sid videoId currentTime now : Nat)
    (h : findOneOwned db videoId u.id = none) :
    video_play db b st u sid videoId currentTime now =
      (db, [(sid, OutEvent.errorMsg "Video not found or access denied")]) := by
  rw [video_play, h]

theorem claim_C8_witness :
    findOneOwned sampleDb 43 1 = none ∧
    video_play sampleDb false samplePairedState sampleParent 11 43 0 9 =
      (sampleDb, [(11, OutEvent.errorMsg "Video not found or access denied")]) :=
  ⟨by decide,
    claim_C8_access_denied_error_to_parent_only sampleDb false samplePairedState
      sampleParent 11 43 0 9 (by decide)⟩

/-- C7: a `get_paired_status` query from a user with a declared partner is
answered synchronously on the requesting socket alone with a
`paired_status` payload whose `isOnline` field holds exactly when the
partner is present in the Presence Directory and whose `lastSeen` field is
the partner's `connectedAt` (or null); after the partner disconnects, the
same query answers `isOnline = false`. -/
theorem claim_C7_paired_status_reply (st : ServerState) (u : User)
    (sid pid : Nat) (pu : User) (psid pnow : Nat)
    (hpair : u.pairedWith = some pid) (hpu : pu.id = pid) :
    get_paired_status st u sid =
      [(sid, OutEvent.paired_status (mapGet pid st.activeConnections).isSome
          ((mapGet pid st.activeConnections).map Conn.connectedAt))] ∧
    get_paired_status (handleDisconnection st pu psid pnow).1 u sid =
      [(sid, OutEvent.paired_status false none)] := by
  constructor
  · simp [get_paired_status, hpair]
  · have hac : (handleDisconnection st pu psid pnow).1.activeConnections =
        mapDelete pu.id st.activeConnections := by
      rw [handleDisconnection]
      by_cases hr : pu.role = Role.parent <;> simp [hr]
    simp [get_paired_status, hpair, hac, hpu, mapGet_mapDelete_self]

theorem claim_C7_witness :
    sampleParent.pairedWith = some 2 ∧ sampleChild.id = 2 ∧
    (get_paired_status samplePairedState sampleParent 11 =
      [(11, OutEvent.paired_status true (some 1))] ∧
     get_paired_status (handleDisconnection samplePairedState sampleChild 12 9).1
        sampleParent 11 =
      [(11, OutEvent.paired_status false none)]) := by
  refine ⟨by decide, by decide, ?_⟩
  have h := claim_C7_paired_status_reply samplePairedState sampleParent 11 2
    sampleChild 12 9 (by decide) (by decide)
  exact ⟨by rw [h.1]; decide, h.2⟩

/-- C3 (counterexample to the claim as stated): with the child connected
and the parent owning the video, a `video_play` whose play-counter
increment fails first delivers the `video_control` relay to the child's
socket and then emits an `error` event to the issuing parent — so the
parent does receive an `error` for a command that was already visibly
relayed, contradicting the claim. -/
theorem claim_C3_counterexample :
    (12, OutEvent.video_control
        (VideoControl.play 42 0 sampleVideo.descr 9)) ∈
      (video_play sampleDb true samplePairedState sampleParent 11 42 0 9).2 ∧
    (11, OutEvent.errorMsg "Failed to play video") ∈
      (video_play sampleDb true samplePairedState sampleParent 11 42 0 9).2 := by
  decide

/-- C3 (amended): for an owned video, the `video_control` relay to the
family room is always emitted first and is never blocked or retracted by
the play-counter increment; a successful increment bumps the counter and
emits nothing else, while a failing increment leaves the counter
unchanged and additionally emits `error "Failed to play video"` to the
issuing parent after the already-emitted relay. -/
theorem claim_C3_relay_before_increment (db : List Video) (b : Bool)
    (st : ServerState) (u : User) (sid videoId currentTime now : Nat)
    (v : Video) (h : findOneOwned db videoId u.id = some v) :
    video_play db b st u sid videoId currentTime now =
      ((if b then db else incrementPlayCount db videoId now),
        emitToRoom st u.id sid
            (OutEvent.video_control
              (VideoControl.play videoId currentTime v.descr now)) ++
          (if b then [(sid, OutEvent.errorMsg "Failed to play video")] else [])) := by
  rw [video_play, h]
  by_cases hb : b <;> simp [hb]

theorem claim_C3_witness :
    findOneOwned sampleDb 42 1 = some sampleVideo ∧
    video_play sampleDb false samplePairedState sampleParent 11 42 0 9 =
      (incrementPlayCount sampleDb 42 9,
        emitToRoom samplePairedState 1 11
          (OutEvent.video_control (VideoControl.play 42 0 sampleVideo.descr 9))) := by
  refine ⟨by decide, ?_⟩
  have h := claim_C3_relay_before_increment sampleDb false samplePairedState
    sampleParent 11 42 0 9 sampleVideo (by decide)
  simpa using h

/-- C6: when a user connects while their declared partner is present in
the Presence Directory, the connect emits exactly two notifications — one
to the partner's registered socket about the connecting user, one to the
connecting socket about the partner, each carrying the peer's display
name, and none about themselves; when the partner is absent the connect
emits nothing at all (and no error). -/
theorem claim_C6_mutual_online_on_connect (st : ServerState) (u : User)
    (sid now pid : Nat)
    (hpair : u.pairedWith = some pid) (hne : pid ≠ u.id) :
    (u.role = Role.parent →
      (handleConnection st u sid now).2 =
        (mapGet pid st.activeConnections).elim []
          (fun cc =>
            [(cc.socketId, OutEvent.parent_online u.name u.id now),
             (sid, OutEvent.child_online cc.user.name cc.user.id now)])) ∧
    (u.role = Role.child →
      (handleConnection st u sid now).2 =
        (mapGet pid st.activeConnections).elim []
          (fun pc =>
            [(pc.socketId, OutEvent.child_online u.name u.id now),
             (sid, OutEvent.parent_online pc.user.name pc.user.id now)])) := by
  have hget : mapGet pid
      (mapSet u.id { socketId := sid, user := u, connectedAt := now }
        st.activeConnections) = mapGet pid st.activeConnections :=
    mapGet_mapSet_ne _ _ hne
  constructor
  · intro hrole
    rw [handleConnection, handlePairing]
    simp only [hrole, hpair]
    rw [hget]
    rcases hm : mapGet pid st.activeConnections with _ | cc <;> simp
  · intro hrole
    rw [handleConnection, handlePairing]
    simp only [hrole, hpair]
    rw [hget]
    rcases hm : mapGet pid st.activeConnections with _ | pc <;> simp

theorem claim_C6_witness :
    sampleChild.pairedWith = some 1 ∧ (1 : Nat) ≠ sampleChild.id ∧
    (handleConnection sampleParentOnlyState sampleChild 12 7).2 =
      [(11, OutEvent.child_online "Bob" 2 7),
       (12, OutEvent.parent_online "Alice" 1 7)] := by
  refine ⟨by decide, by decide, ?_⟩
  have h := (claim_C6_mutual_online_on_connect sampleParentOnlyState sampleChild
    12 7 1 (by decide) (by decide)).2 (by decide)
  rw [h]
  decide

/-- C9: on disconnect of a user with a declared partner, the user's entry
leaves the Presence Directory, and exactly one role-appropriate
peer-offline notification carrying the user's display name and the
disconnect timestamp is emitted, addressed solely to the partner's
registered socket when the partner is still present — and nothing is
emitted when the partner is absent. -/
theorem claim_C9_offline_notification_on_disconnect (st : ServerState)
    (u : User) (sid now pid : Nat)
    (hpair : u.pairedWith = some pid) (hne : pid ≠ u.id) :
    mapGet u.id (handleDisconnection st u sid now).1.activeConnections = none ∧
    (u.role = Role.child →
      (handleDisconnection st u sid now).2 =
        (mapGet pid st.activeConnections).elim []
          (fun pc => [(pc.socketId, OutEvent.child_offline u.name u.id now)])) ∧
    (u.role = Role.parent →
      (handleDisconnection st u sid now).2 =
        (mapGet pid st.activeConnections).elim []
          (fun pc => [(pc.socketId, OutEvent.parent_offline u.name u.id now)])) := by
  have hac : (handleDisconnection st u sid now).1.activeConnections =
      mapDelete u.id st.activeConnections := by
    rw [handleDisconnection]
    by_cases hr : u.role = Role.parent <;> simp [hr]
  have hget : mapGet pid (mapDelete u.id st.activeConnections) =
      mapGet pid st.activeConnections := mapGet_mapDelete_ne _ hne
  refine ⟨by rw [hac, mapGet_mapDelete_self], ?_, ?_⟩
  · intro hrole
    rw [handleDisconnection]
    simp only [hpair, hget, hrole]
    rcases hm : mapGet pid st.activeConnections with _ | pc <;> simp
  · intro hrole
    rw [handleDisconnection]
    simp only [hpair, hget, hrole]
    rcases hm : mapGet pid st.activeConnections with _ | pc <;> simp

theorem claim_C9_witness :
    sampleChild.pairedWith = some 1 ∧ (1 : Nat) ≠ sampleChild.id ∧
    (mapGet 2 (handleDisconnection samplePairedState sampleChild 12 9).1.activeConnections
        = none ∧
      (handleDisconnection samplePairedState sampleChild 12 9).2 =
        [(11, OutEvent.child_offline "Bob" 2 9)]) := by
  refine ⟨by decide, by decide, ?_⟩
  have h := claim_C9_offline_notification_on_disconnect samplePairedState
    sampleChild 12 9 1 (by decide) (by decide)
  refine ⟨h.1, ?_⟩
  rw [h.2.1 (by decide)]
  decide

/-- C2 (counterexample to the claim as stated): after user 7 connects on
socket 1, reconnects on socket 2, and the superseded socket 1 then fires
its late disconnect, the Presence Directory holds no entry at all for
user 7 — even though the most recently completed connect (socket 2, never
disconnected) should, per the claim, still be registered.
`handleDisconnection` deletes by user id alone, so the stale socket's
disconnect evicts the fresh connection's entry. -/
theorem claim_C2_counterexample :
    latestConnOf 7
        [Event.connect { id := 7, role := Role.child, pairedWith := none, name := "Kim" } 1 0,
         Event.connect { id := 7, role := Role.child, pairedWith := none, name := "Kim" } 2 5,
         Event.disconnect { id := 7, role := Role.child, pairedWith := none, name := "Kim" } 1 9] =
      some { socketId := 2,
             user := { id := 7, role := Role.child, pairedWith := none, name := "Kim" },
             connectedAt := 5 } ∧
    mapGet 7
        (run
          [Event.connect { id := 7, role := Role.child, pairedWith := none, name := "Kim" } 1 0,
           Event.connect { id := 7, role := Role.child, pairedWith := none, name := "Kim" } 2 5,
           Event.disconnect { id := 7, role := Role.child, pairedWith := none, name := "Kim" } 1 9]).activeConnections
      = none := by
  decide

/-- C2 (amended): after any sequence of connect and disconnect events the
Presence Directory holds at most one entry per user id, and any entry that
is present is exactly the one written by that user's most recently
completed connect; however — as the counterexample shows — a late
disconnect of a superseded connection deletes the fresh entry, so after a
reconnect followed by the old socket's disconnect the directory may hold
no entry for a user whose latest connection is still live. -/
theorem claim_C2_directory_uniqueness_and_freshness (es : List Event)
    (uid : Nat) (c : Conn)
    (h : mapGet uid (run es).activeConnections = some c) :
    (dirKeys (run es)).Nodup ∧ latestConnOf uid es = some c := by
  refine ⟨dirKeys_nodup_runFrom es initialState (by decide), ?_⟩
  rcases mapGet_runFrom_fresh es initialState uid c h with h1 | ⟨_, h2⟩
  · exact h1
  · rw [initialState] at h2
    cases h2

theorem claim_C2_witness :
    mapGet 7
        (run [Event.connect { id := 7, role := Role.child, pairedWith := none, name := "Kim" } 1 0]).activeConnections
      = some { socketId := 1,
               user := { id := 7, role := Role.child, pairedWith := none, name := "Kim" },
               connectedAt := 0 } ∧
    ((dirKeys (run [Event.connect { id := 7, role := Role.child, pairedWith := none, name := "Kim" } 1 0])).Nodup ∧
      latestConnOf 7 [Event.connect { id := 7, role := Role.child, pairedWith := none, name := "Kim" } 1 0] =
        some { socketId := 1,
               user := { id := 7, role := Role.child, pairedWith := none, name := "Kim" },
               connectedAt := 0 }) :=
  ⟨by decide,
    claim_C2_directory_uniqueness_and_freshness
      [Event.connect { id := 7, role := Role.child, pairedWith := none, name := "Kim" } 1 0]
      7 _ (by decide)⟩

/-! ### Resolution of the next/previous handlers -/

theorem jsIdx_length_cons {α : Type} (a : α) (l : List α) :
    jsIdx (a :: l) ((a :: l).length : Int) = none := by
  rw [jsIdx, if_neg (not_lt.mpr (Int.natCast_nonneg _)), Int.toNat_natCast]
  exact List.get?_length _

theorem jsIdx_pred_length_cons {α : Type} (a : α) (l : List α) :
    jsIdx (a :: l) (((a :: l).length : Int) - 1) = (a :: l).getLast? := by
  have h1 : ((a :: l).length : Int) - 1 = (l.length : Int) := by
    simp
  rw [h1, jsIdx, if_neg (not_lt.mpr (Int.natCast_nonneg _)), Int.toNat_natCast]
  have h2 := get?_pred_length_eq_getLast (a :: l) (by simp)
  simpa using h2

/-- When `currentVideoId` is found at the catalog's last position,
`video_next` wraps around and resolves to the catalog's first video. -/
theorem video_next_at_last {db : List Video} {st : ServerState} {u : User}
    {sid cid now : Nat} {v1 : Video} {rest : List Video}
    (heq : videosFor db u.id = v1 :: rest)
    (hidx : findIdxO (fun v => v.id == cid) (v1 :: rest) =
      some ((v1 :: rest).length - 1)) :
    video_next db st u sid cid now =
      emitToRoom st u.id sid
        (OutEvent.video_control (VideoControl.next v1.id v1.descr now)) := by
  rw [video_next, heq, jsFindIndex, hidx]
  have h1 : ((((v1 :: rest).length - 1 : Nat) : Int) + 1) =
      ((v1 :: rest).length : Int) := by
    simp only [List.length_cons]
    omega
  rw [h1, jsIdx_length_cons]
  rfl

/-- When `currentVideoId` is found at the catalog's first position,
`video_previous` wraps around and resolves to the catalog's last video. -/
theorem video_previous_at_first {db : List Video} {st : ServerState} {u : User}
    {sid cid now : Nat} {v1 vn : Video} {rest : List Video}
    (heq : videosFor db u.id = v1 :: rest)
    (hidx : findIdxO (fun v => v.id == cid) (v1 :: rest) = some 0)
    (hlast : (v1 :: rest).getLast? = some vn) :
    video_previous db st u sid cid now =
      emitToRoom st u.id sid
        (OutEvent.video_control (VideoControl.previous vn.id vn.descr now)) := by
  rw [video_previous, heq, jsFindIndex, hidx]
  have h1 : jsIdx (v1 :: rest) (((0 : Nat) : Int) - 1) = none := by
    rw [jsIdx, if_pos (by decide)]
  rw [h1, jsIdx_pred_length_cons, hlast]
  rfl

/-- When `currentVideoId` does not occur in the catalog at all,
`video_next` resolves to the catalog's first video. -/
theorem video_next_at_unknown {db : List Video} {st : ServerState} {u : User}
    {sid cid now : Nat} {v1 : Video} {rest : List Video}
    (heq : videosFor db u.id = v1 :: rest)
    (hidx : findIdxO (fun v => v.id == cid) (v1 :: rest) = none) :
    video_next db st u sid cid now =
      emitToRoom st u.id sid
        (OutEvent.video_control (VideoControl.next v1.id v1.descr now)) := by
  rw [video_next, heq, jsFindIndex, hidx]
  have h1 : jsIdx (v1 :: rest) (-1 + 1) = some v1 := by
    rw [show (-1 + 1 : Int) = 0 from rfl, jsIdx, if_neg (by decide)]
    rfl
  rw [h1]
  rfl

/-- When `currentVideoId` does not occur in the catalog at all,
`video_previous` resolves to the catalog's last video. -/
theorem video_previous_at_unknown {db : List Video} {st : ServerState} {u : User}
    {sid cid now : Nat} {v1 vn : Video} {rest : List Video}
    (heq : videosFor db u.id = v1 :: rest)
    (hidx : findIdxO (fun v => v.id == cid) (v1 :: rest) = none)
    (hlast : (v1 :: rest).getLast? = some vn) :
    video_previous db st u sid cid now =
      emitToRoom st u.id sid
        (OutEvent.video_control (VideoControl.previous vn.id vn.descr now)) := by
  rw [video_previous, heq, jsFindIndex, hidx]
  have h1 : jsIdx (v1 :: rest) (-1 - 1) = none := by
    rw [jsIdx, if_pos (by decide)]
  rw [h1, jsIdx_pred_length_cons, hlast]
  rfl

/-- With an empty catalog both handlers resolve no video and emit
nothing. -/
theorem video_next_previous_empty {db : List Video} {st : ServerState}
    {u : User} (sid cid now : Nat) (hvs : videosFor db u.id = []) :
    video_next db st u sid cid now = [] ∧
      video_previous db st u sid cid now = [] := by
  constructor
  · rw [video_next, hvs, jsFindIndex]
    rw [show findIdxO (fun v => v.id == cid) ([] : List Video) = none from rfl]
    rfl
  · rw [video_previous, hvs, jsFindIndex]
    rw [show findIdxO (fun v => v.id == cid) ([] : List Video) = none from rfl]
    rfl

/-- C5: with a duplicate-free non-empty catalog, `video_next` issued at
the last video of the ordering resolves to the first, and `video_previous`
issued at the first resolves to the last (cyclic playlist semantics), the
resolved video being broadcast to the family room; with an empty catalog
both commands emit nothing at all (no relay, no error), whatever
`currentVideoId` they carry. -/
theorem claim_C5_cyclic_next_previous (db : List Video) (st : ServerState)
    (u : User) (sid now anyId : Nat)
    (hnd : ((videosFor db u.id).map Video.id).Nodup) :
    (videosFor db u.id = [] →
      video_next db st u sid anyId now = [] ∧
      video_previous db st u sid anyId now = []) ∧
    video_next db st u sid ((videosFor db u.id).getLast?.elim 0 Video.id) now =
      ((videosFor db u.id).head?.elim []
        (fun v1 => emitToRoom st u.id sid
          (OutEvent.video_control (VideoControl.next v1.id v1.descr now)))) ∧
    video_previous db st u sid ((videosFor db u.id).head?.elim 0 Video.id) now =
      ((videosFor db u.id).getLast?.elim []
        (fun vn => emitToRoom st u.id sid
          (OutEvent.video_control (VideoControl.previous vn.id vn.descr now)))) := by
  refine ⟨fun hvs => video_next_previous_empty sid anyId now hvs, ?_, ?_⟩
  · rcases heq : videosFor db u.id with _ | ⟨v1, rest⟩
    · simp only [List.getLast?_nil, List.head?_nil, Option.elim_none]
      exact (video_next_previous_empty sid 0 now heq).1
    · obtain ⟨vn, hlast⟩ : ∃ vn, (v1 :: rest).getLast? = some vn :=
        ⟨(v1 :: rest).getLast (by simp),
          List.getLast?_eq_getLast_of_ne_nil (by simp)⟩
      rw [heq] at hnd
      rw [hlast]
      simp only [Option.elim_some, List.head?_cons]
      exact video_next_at_last heq
        (findIdxO_getLast_of_nodup_keys hnd hlast)
  · rcases heq : videosFor db u.id with _ | ⟨v1, rest⟩
    · simp only [List.getLast?_nil, List.head?_nil, Option.elim_none]
      exact (video_next_previous_empty sid 0 now heq).2
    · obtain ⟨vn, hlast⟩ : ∃ vn, (v1 :: rest).getLast? = some vn :=
        ⟨(v1 :: rest).getLast (by simp),
          List.getLast?_eq_getLast_of_ne_nil (by simp)⟩
      rw [hlast]
      simp only [Option.elim_some, List.head?_cons]
      exact video_previous_at_first heq
        (findIdxO_cons_of_pos _ (by simp)) hlast

theorem claim_C5_witness :
    ((videosFor sampleDb3 1).map Video.id).Nodup ∧
    ((videosFor sampleDb3 1 = [] →
        video_next sampleDb3 samplePairedState sampleParent 11 0 9 = [] ∧
        video_previous sampleDb3 samplePairedState sampleParent 11 0 9 = []) ∧
      video_next sampleDb3 samplePairedState sampleParent 11
          ((videosFor sampleDb3 1).getLast?.elim 0 Video.id) 9 =
        ((videosFor sampleDb3 1).head?.elim []
          (fun v1 => emitToRoom samplePairedState 1 11
            (OutEvent.video_control (VideoControl.next v1.id v1.descr 9)))) ∧
      video_previous sampleDb3 samplePairedState sampleParent 11
          ((videosFor sampleDb3 1).head?.elim 0 Video.id) 9 =
        ((videosFor sampleDb3 1).getLast?.elim []
          (fun vn => emitToRoom samplePairedState 1 11
            (OutEvent.video_control (VideoControl.previous vn.id vn.descr 9))))) :=
  ⟨by decide,
    claim_C5_cyclic_next_previous sampleDb3 samplePairedState sampleParent 11 9 0
      (by decide)⟩

/-- C10: when a parent issues `video_next` with a `currentVideoId` absent
from their non-empty catalog, the relay resolves to the catalog's first
video (the ordering is by `createdAt` descending, so the most recently
created); `video_previous` with such an unknown id resolves to the
catalog's last video (the oldest); neither command emits any `error` —
the resolved video is broadcast to the family room as usual. -/
theorem claim_C10_unknown_id_resolution (db : List Video) (st : ServerState)
    (u : User) (sid cid now : Nat)
    (hunknown : ∀ v ∈ videosFor db u.id, v.id ≠ cid)
    (hne : videosFor db u.id ≠ []) :
    List.Pairwise (fun a b => b.createdAt ≤ a.createdAt) (videosFor db u.id) ∧
    video_next db st u sid cid now =
      ((videosFor db u.id).head?.elim []
        (fun v1 => emitToRoom st u.id sid
          (OutEvent.video_control (VideoControl.next v1.id v1.descr now)))) ∧
    video_previous db st u sid cid now =
      ((videosFor db u.id).getLast?.elim []
        (fun vn => emitToRoom st u.id sid
          (OutEvent.video_control (VideoControl.previous vn.id vn.descr now)))) := by
  refine ⟨by rw [videosFor]; exact pairwise_sortByCreatedAtDesc _, ?_, ?_⟩
  · rcases heq : videosFor db u.id with _ | ⟨v1, rest⟩
    · exact absurd heq hne
    · rw [heq] at hunknown
      simp only [List.head?_cons, Option.elim_some]
      exact video_next_at_unknown heq
        (findIdxO_eq_none (fun a ha => by
          simp only [beq_eq_false_iff_ne, ne_eq]
          exact hunknown a ha))
  · rcases heq : videosFor db u.id with _ | ⟨v1, rest⟩
    · exact absurd heq hne
    · obtain ⟨vn, hlast⟩ : ∃ vn, (v1 :: rest).getLast? = some vn :=
        ⟨(v1 :: rest).getLast (by simp),
          List.getLast?_eq_getLast_of_ne_nil (by simp)⟩
      rw [heq] at hunknown
      rw [hlast]
      simp only [Option.elim_some]
      exact video_previous_at_unknown heq
        (findIdxO_eq_none (fun a ha => by
          simp only [beq_eq_false_iff_ne, ne_eq]
          exact hunknown a ha)) hlast

theorem claim_C10_witness :
    (∀ v ∈ videosFor sampleDb3 1, v.id ≠ 999) ∧ videosFor sampleDb3 1 ≠ [] ∧
    (List.Pairwise (fun a b => b.createdAt ≤ a.createdAt) (videosFor sampleDb3 1) ∧
      video_next sampleDb3 samplePairedState sampleParent 11 999 9 =
        ((videosFor sampleDb3 1).head?.elim []
          (fun v1 => emitToRoom samplePairedState 1 11
            (OutEvent.video_control (VideoControl.next v1.id v1.descr 9)))) ∧
      video_previous sampleDb3 samplePairedState sampleParent 11 999 9 =
        ((videosFor sampleDb3 1).getLast?.elim []
          (fun vn => emitToRoom samplePairedState 1 11
            (OutEvent.video_control (VideoControl.previous vn.id vn.descr 9))))) :=
  ⟨by decide, by decide,
    claim_C10_unknown_id_resolution sampleDb3 samplePairedState sampleParent 11
      999 9 (by decide) (by decide)⟩

/-- C1: in a well-formed state with parent `u` registered at socket `sid`,
its declared partner child `cid` registered at connection `cc`, and no
other connected child partnered to `u`, a `video_play` for a video the
parent owns emits exactly one message: the `video_control` relay to the
partner child's registered socket — never to any other connected child,
however many other parent/child pairs are connected. -/
theorem claim_C1_partner_scoped_delivery (db : List Video) (st : ServerState)
    (u : User) (sid cid videoId currentTime now : Nat) (pc cc : Conn)
    (v : Video)
    (hwf : WellFormed st)
    (hrole : u.role = Role.parent)
    (_hpair : u.pairedWith = some cid)
    (hreg : mapGet u.id st.activeConnections = some pc)
    (hpcu : pc.user = u) (hpcs : pc.socketId = sid)
    (hconsist : ∀ p ∈ st.activeConnections,
        p.2.user.role = Role.child → p.2.user.pairedWith = some u.id →
        p.1 = cid)
    (hcc : mapGet cid st.activeConnections = some cc)
    (hccrole : cc.user.role = Role.child)
    (hccpair : cc.user.pairedWith = some u.id)
    (hv : findOneOwned db videoId u.id = some v) :
    (video_play db false st u sid videoId currentTime now).2 =
      [(cc.socketId, OutEvent.video_control
          (VideoControl.play videoId currentTime v.descr now))] := by
  rw [video_play, hv]
  simp only [Bool.false_eq_true, if_false]
  rw [emitToRoom, roomTargets_eq_partner_socket hwf hrole hreg hpcu hpcs
    hconsist hcc hccrole hccpair]
  rfl

theorem claim_C1_witness :
    WellFormed samplePairedState ∧
    findOneOwned sampleDb 42 1 = some sampleVideo ∧
    (video_play sampleDb false samplePairedState sampleParent 11 42 0 9).2 =
      [(12, OutEvent.video_control
          (VideoControl.play 42 0 sampleVideo.descr 9))] :=
  ⟨by decide, by decide,
    claim_C1_partner_scoped_delivery sampleDb samplePairedState sampleParent
      11 2 42 0 9
      { socketId := 11, user := sampleParent, connectedAt := 0 }
      { socketId := 12, user := sampleChild, connectedAt := 1 }
      sampleVideo (by decide) (by decide) (by decide) (by decide) (by decide)
      (by decide) (by decide) (by decide) (by decide) (by decide) (by decide)⟩

/-- C4: in a well-formed state with parent `u` registered at socket `sid`
and its child partner `cid` absent from the Presence Directory, every
parent command — an owned `video_play` with a succeeding counter
increment, `video_pause`, `video_seek`, `video_volume`, `video_stop` —
emits nothing at all: no message to anyone and in particular no `error`
back to the parent. -/
theorem claim_C4_absent_partner_silent_noop (db : List Video)
    (st : ServerState) (u : User)
    (sid cid videoId currentTime seekTime volumeLevel now : Nat) (pc : Conn)
    (v : Video)
    (hwf : WellFormed st)
    (hrole : u.role = Role.parent)
    (_hpair : u.pairedWith = some cid)
    (hreg : mapGet u.id st.activeConnections = some pc)
    (hpcu : pc.user = u) (hpcs : pc.socketId = sid)
    (hconsist : ∀ p ∈ st.activeConnections,
        p.2.user.role = Role.child → p.2.user.pairedWith = some u.id →
        p.1 = cid)
    (habsent : mapGet cid st.activeConnections = none)
    (hv : findOneOwned db videoId u.id = some v) :
    (video_play db false st u sid videoId currentTime now).2 = [] ∧
    video_pause st u sid videoId currentTime now = [] ∧
    video_seek st u sid videoId seekTime now = [] ∧
    video_volume st u sid videoId volumeLevel now = [] ∧
    video_stop st u sid videoId now = [] := by
  have hnil : roomTargets st u.id sid = [] :=
    roomTargets_eq_nil_of_partner_absent hwf hrole hreg hpcu hpcs hconsist
      habsent
  have hemit : ∀ ev : OutEvent, emitToRoom st u.id sid ev = [] := by
    intro ev
    rw [emitToRoom, hnil]
    rfl
  refine ⟨?_, hemit _, hemit _, hemit _, hemit _⟩
  rw [video_play, hv]
  simp only [Bool.false_eq_true, if_false]
  rw [hemit]

theorem claim_C4_witness :
    WellFormed sampleParentOnlyState ∧
    mapGet 2 sampleParentOnlyState.activeConnections = none ∧
    findOneOwned sampleDb 42 1 = some sampleVideo ∧
    ((video_play sampleDb false sampleParentOnlyState sampleParent 11 42 0 9).2 = [] ∧
      video_pause sampleParentOnlyState sampleParent 11 42 0 9 = [] ∧
      video_seek sampleParentOnlyState sampleParent 11 42 4 9 = [] ∧
      video_volume sampleParentOnlyState sampleParent 11 42 5 9 = [] ∧
      video_stop sampleParentOnlyState sampleParent 11 42 9 = []) :=
  ⟨by decide, by decide, by decide,
    claim_C4_absent_partner_silent_noop sampleDb sampleParentOnlyState
      sampleParent 11 2 42 0 4 5 9
      { socketId := 11, user := sampleParent, connectedAt := 0 }
      sampleVideo (by decide) (by decide) (by decide) (by decide) (by decide)
      (by decide) (by decide) (by decide) (by decide)⟩

end PlayTogether
